import Mathlib

/-!
Verification development for the AntPlan heuristic evaluator
(src/search/heuristics/antplan_heuristic.{h,cc}).

The C++ code is shallowly embedded: 64-bit unsigned arithmetic is `Nat`
taken modulo `2 ^ 64`, the C `int` type is `Int` with explicit wrapping
modulo `2 ^ 32` where a conversion can overflow, and the Python `double`
returned by the cost function is modelled by `Dbl` below: either a special
value (NaN, plus/minus infinity) or an exact rational.  Every finite IEEE
double is an exact rational, and the arithmetic performed on scores by the
heuristic (rounding with `std::lround`, clamping, one comparison against
`current_cost * improvement_threshold`) is modelled by the exact rational
operations.  Python calls that raise are modelled by `Except Unit`.
-/

namespace AntPlan

/-- Model of a C++ `double` value returned by the Python cost function:
NaN, infinities, or a finite value (every finite double is a rational). -/
inductive Dbl where
  | nan : Dbl
  | posInf : Dbl
  | negInf : Dbl
  | finite (q : ℚ) : Dbl
deriving DecidableEq

/-- The C++ `<` comparison on doubles: any comparison with NaN is false. -/
def dblLt : Dbl → Dbl → Bool
  | .nan, _ => false
  | _, .nan => false
  | .negInf, .negInf => false
  | .negInf, _ => true
  | _, .negInf => false
  | .posInf, _ => false
  | .finite _, .posInf => true
  | .finite a, .finite b => decide (a < b)

/-- Conversion of a (64-bit) integer to a 32-bit C++ `int`: wraps modulo
`2 ^ 32` (the behaviour of the compilers Fast Downward builds with). -/
def toInt32 (n : Int) : Int := (n + 2 ^ 31) % 2 ^ 32 - 2 ^ 31

/-- `std::lround`: round to nearest integer, halfway cases away from zero. -/
def lround (q : ℚ) : Int := if 0 ≤ q then ⌊q + 1 / 2⌋ else -⌊-q + 1 / 2⌋

/-- Truncation of a double toward zero, as performed by
`static_cast<int>(double)` on the in-range values; the out-of-range and
non-finite cases are undefined behaviour in C++ and modelled arbitrarily
(they wrap, respectively map to 0, in this model). -/
def dblTruncToInt : Dbl → Int
  | .nan => 0
  | .posInf => 0
  | .negInf => 0
  | .finite q => toInt32 (if 0 ≤ q then ⌊q⌋ else -⌊-q⌋)

/-- Lines 376-381 of antplan_heuristic.cc: NaN and infinities become 0,
otherwise the score is rounded with `std::lround`, converted to `int`
(wrapping), and negative results are clamped to 0. -/
def normalize_score : Dbl → Int
  | .nan => 0
  | .posInf => 0
  | .negInf => 0
  | .finite q => let n := toInt32 (lround q); if n < 0 then 0 else n

/-- Lines 56-60: one FNV-1a fold step on 64-bit unsigned values
(`h ^= x; h *= 1099511628211`). -/
def fnv1a_64_update (h x : ℕ) : ℕ := ((h ^^^ x) * 1099511628211) % 2 ^ 64

/-- The seed used on line 63 of antplan_heuristic.cc. -/
def fnvOffset : ℕ := 1469598103934665603

/-- The per-variable input word on line 68:
`v + 0x9e3779b97f4a7c15 + (var_id << 1)`, as a 64-bit value. -/
def mixPair (varId v : ℕ) : ℕ := (v + 0x9e3779b97f4a7c15 + varId * 2) % 2 ^ 64

/-- Folding the FNV-1a update over a sequence of `(var_id, value)` pairs,
in the order given. -/
def hashPairs (ps : List (ℕ × ℕ)) : ℕ :=
  ps.foldl (fun h p => fnv1a_64_update h (mixPair p.1 p.2)) fnvOffset

/-- A planning state: the value of variable `i` is the `i`-th list entry. -/
abbrev StateV := List ℕ

/-- Lines 62-71: the 64-bit state fingerprint, folding over the
`(var_id, value)` pairs in ascending `var_id` order. -/
def hash_state_values (s : StateV) : ℕ := hashPairs s.enum

/-- An operator of the planning task as the probe uses it: preconditions
and effects are `(var, value)` pairs. -/
structure FDOperator where
  preconds : List (ℕ × ℕ)
  effects : List (ℕ × ℕ)
deriving DecidableEq

/-- `task_properties::is_applicable`: every precondition holds in `s`. -/
def isApplicable (op : FDOperator) (s : StateV) : Bool :=
  op.preconds.all fun pc => s.getD pc.1 0 == pc.2

/-- `State::get_unregistered_successor`: apply the operator's effects. -/
def applyOp (op : FDOperator) (s : StateV) : StateV :=
  op.effects.foldl (fun st e => st.set e.1 e.2) s

/-- The external Python cost function (the Oracle): it either returns a
double or raises. -/
abbrev Oracle := StateV → Except Unit Dbl

/-- The value computed by the try/catch block of `compute_heuristic`
(lines 362-395): the score of the evaluated state, normalized, with a
raised exception caught and replaced by the fallback 0. -/
def mainValue (oracle : Oracle) (s : StateV) : Int :=
  match oracle s with
  | .ok d => normalize_score d
  | .error _ => 0

/-- Lookup in the memoization cache (`g_cache.find`), keyed by the 64-bit
fingerprint.  The `unordered_map` is modelled as an association list
without duplicate keys. -/
def cacheFind (k : ℕ) : List (ℕ × Int) → Option Int
  | [] => none
  | p :: rest => if p.1 = k then some p.2 else cacheFind k rest

/-- `g_cache[key] = value`: replace the entry if the key is present,
otherwise add a new entry. -/
def cacheInsert (k : ℕ) (v : Int) (c : List (ℕ × Int)) : List (ℕ × Int) :=
  if (cacheFind k c).isSome then
    c.map fun p => if p.1 = k then (k, v) else p
  else
    (k, v) :: c

/-- Lines 73-77: clear the whole cache once its entry count exceeds the
configured bound (checked before the next insertion). -/
def maybe_evict_cache (useCache : Bool) (maxEntries : ℕ) (c : List (ℕ × Int)) :
    List (ℕ × Int) :=
  if !useCache then c
  else if c.length ≤ maxEntries then c
  else []

/-- Insertion of an element into a list sorted by the boolean comparison
`le` (used to model `std::sort`, which only guarantees a permutation
ordered by the comparator). -/
def insertLe {α : Type} (le : α → α → Bool) (x : α) : List α → List α
  | [] => [x]
  | y :: ys => if le x y then x :: y :: ys else y :: insertLe le x ys

/-- Insertion sort by the boolean comparison `le`: a sorted permutation,
modelling `std::sort`. -/
def sortLe {α : Type} (le : α → α → Bool) : List α → List α
  | [] => []
  | x :: xs => insertLe le x (sortLe le xs)

/-- The comparator passed to `std::sort` on lines 296-300, lifted to the
"not greater" boolean order the sorted result satisfies: candidate `a`
may precede `b` when `b`'s score is not below `a`'s. -/
def scoreLe (a b : ℕ × FDOperator × Dbl) : Bool := !dblLt b.2.2 a.2.2

/-- The evaluator configuration (ctor lines 119-150 and the parser
defaults, lines 423-484).  `exploration_depth` is an `int` in the source;
configurations use non-negative depths, modelled as `ℕ`. -/
structure Config where
  useCache : Bool
  cacheMaxEntries : ℕ
  explorationFrequency : Int
  explorationDepth : ℕ
  improvementThreshold : ℚ
  explorationBudget : Int
  ops : List FDOperator

/-- The mutable statics threaded through evaluations: the memo cache,
`evaluation_count`, `exploration_count` and the probe's
`explored_states` set (a list of fingerprints without duplicates). -/
structure Globals where
  cache : List (ℕ × Int)
  evalCount : Int
  explorationCount : Int
  explored : List ℕ
deriving DecidableEq

/-- Result of one `probe_successors` call: preferred operator indices
added, the updated `explored_states`, the remaining shared budget, how
many successor evaluations the Oracle performed, and whether an Oracle
exception escaped (it is not caught inside the probe). -/
structure ProbeRes where
  preferred : List ℕ
  explored : List ℕ
  budget : Int
  oracleCalls : ℕ
  err : Bool
deriving DecidableEq

/-- Result of the operator loop of `probe_successors` (lines 283-293):
remaining budget, the successors actually scored, the promising subset,
the number of Oracle calls, and whether a call raised. -/
structure ScanRes where
  budget : Int
  evaluated : List (ℕ × FDOperator × Dbl)
  promising : List (ℕ × FDOperator × Dbl)
  oracleCalls : ℕ
  err : Bool
deriving DecidableEq

/-- The operator loop of `probe_successors` (lines 283-293): skip
inapplicable operators, decrement the shared budget per applicable
candidate and break when it drops below zero, score the successor with
the Oracle (a raise aborts the whole probe), and keep the successors
scoring strictly below `current_cost * improvement_threshold`. -/
def probeScan (oracle : Oracle) (s : StateV) (currentCost : Int) (thr : ℚ) :
    List (ℕ × FDOperator) → Int → ScanRes
  | [], b => ⟨b, [], [], 0, false⟩
  | iop :: rest, b =>
    if isApplicable iop.2 s = false then
      probeScan oracle s currentCost thr rest b
    else if b - 1 < 0 then ⟨b - 1, [], [], 0, false⟩
    else
      match oracle (applyOp iop.2 s) with
      | .error _ => ⟨b - 1, [], [], 1, true⟩
      | .ok sc =>
        let r := probeScan oracle s currentCost thr rest (b - 1)
        { budget := r.budget
          evaluated := (iop.1, iop.2, sc) :: r.evaluated
          promising :=
            if dblLt sc (Dbl.finite ((currentCost : ℚ) * thr)) then
              (iop.1, iop.2, sc) :: r.promising
            else r.promising
          oracleCalls := r.oracleCalls + 1
          err := r.err }

/-- `probe_successors` (lines 266-318): stop on exhausted depth or
budget, skip states already explored in this session (clearing the set
once it exceeds 10000 entries), scan the applicable successors, sort the
promising ones by score ascending, mark the best three preferred, and
recurse into the best two with `depth - 1` and the shared budget. -/
def probe (oracle : Oracle) (cfg : Config) :
    ℕ → StateV → Int → Int → List ℕ → ProbeRes
  | 0, _s, _cost, b, ex => ⟨[], ex, b, 0, false⟩
  | d + 1, s, cost, b, ex =>
    if b ≤ 0 then ⟨[], ex, b, 0, false⟩
    else
      let h := hash_state_values s
      if h ∈ ex then ⟨[], ex, b, 0, false⟩
      else
        let ex1 := h :: ex
        let ex2 := if 10000 < ex1.length then [] else ex1
        let scan := probeScan oracle s cost cfg.improvementThreshold cfg.ops.enum b
        if scan.err then ⟨[], ex2, scan.budget, scan.oracleCalls, true⟩
        else
          let sorted := sortLe scoreLe scan.promising
          let pref := (sorted.take 3).map fun t => t.1
          match sorted with
          | [] => ⟨pref, ex2, scan.budget, scan.oracleCalls, false⟩
          | c1 :: restSorted =>
            if scan.budget ≤ 0 then ⟨pref, ex2, scan.budget, scan.oracleCalls, false⟩
            else
              let r1 := probe oracle cfg d (applyOp c1.2.1 s) (dblTruncToInt c1.2.2)
                scan.budget ex2
              if r1.err then
                ⟨pref, r1.explored, r1.budget, scan.oracleCalls + r1.oracleCalls, true⟩
              else
                match restSorted with
                | [] =>
                  ⟨pref ++ r1.preferred, r1.explored, r1.budget,
                    scan.oracleCalls + r1.oracleCalls, false⟩
                | c2 :: _ =>
                  if r1.budget ≤ 0 then
                    ⟨pref ++ r1.preferred, r1.explored, r1.budget,
                      scan.oracleCalls + r1.oracleCalls, false⟩
                  else
                    let r2 := probe oracle cfg d (applyOp c2.2.1 s)
                      (dblTruncToInt c2.2.2) r1.budget r1.explored
                    ⟨pref ++ r1.preferred ++ r2.preferred, r2.explored, r2.budget,
                      scan.oracleCalls + r1.oracleCalls + r2.oracleCalls, r2.err⟩

/-- `explore_from_state` (lines 320-337): run the probe from the state
with the configured depth and a fresh budget. -/
def explore_from_state (oracle : Oracle) (cfg : Config) (s : StateV)
    (cost : Int) (ex : List ℕ) : ProbeRes :=
  probe oracle cfg cfg.explorationDepth s cost cfg.explorationBudget ex

/-- `should_explore_now` (lines 241-249), on the already incremented
evaluation counter; C++ `%` on `int` is truncating division (`Int.tmod`). -/
def should_explore_now (freq evalCount : Int) : Bool :=
  if evalCount < 100 then evalCount.tmod 5 == 0
  else if evalCount < 500 then evalCount.tmod freq == 0
  else evalCount.tmod (freq * 2) == 0

/-- Result of one `compute_heuristic` call: the returned value (or the
escaped exception), the updated statics, whether the memo cache answered,
the number of Oracle calls performed, and the preferred operator indices
reported to the search. -/
structure EvalRes where
  value : Except Unit Int
  glob : Globals
  cacheHit : Bool
  oracleCalls : ℕ
  preferred : List ℕ

/-- `AntPlanHeuristic::compute_heuristic` (lines 340-420).  The counter is
incremented first; a cache hit returns immediately; otherwise the Python
readiness flag is checked (a miss with Python not ready throws); the state
is scored (exceptions in this call are caught and replaced by 0); the
periodic exploration probe runs after the try/catch, so an Oracle raise
inside it escapes and no value is cached; finally the value is stored in
the cache (evicting first when over capacity) and returned.  `probeOn` is
a model-level switch used only to compare running the probe against
skipping it; the source corresponds to `probeOn = true`. -/
def compute_heuristic (cfg : Config) (oracle : Oracle) (ready probeOn : Bool)
    (s : StateV) (g0 : Globals) : EvalRes :=
  let g : Globals := { g0 with evalCount := g0.evalCount + 1 }
  let key := hash_state_values s
  match (if cfg.useCache then cacheFind key g.cache else none) with
  | some v => ⟨.ok v, g, true, 0, []⟩
  | none =>
    if ready = false then ⟨.error (), g, false, 0, []⟩
    else
      let cost := mainValue oracle s
      if probeOn && should_explore_now cfg.explorationFrequency g.evalCount then
        let pr := explore_from_state oracle cfg s cost g.explored
        let g1 : Globals :=
          { g with explorationCount := g.explorationCount + 1, explored := pr.explored }
        if pr.err then ⟨.error (), g1, false, 1 + pr.oracleCalls, pr.preferred⟩
        else
          let stored1 := cacheInsert key cost
            (maybe_evict_cache cfg.useCache cfg.cacheMaxEntries g1.cache)
          let g2 : Globals :=
            if cfg.useCache then { g1 with cache := stored1 } else g1
          ⟨.ok cost, g2, false, 1 + pr.oracleCalls, pr.preferred⟩
      else
        let stored2 := cacheInsert key cost
          (maybe_evict_cache cfg.useCache cfg.cacheMaxEntries g.cache)
        let g2 : Globals :=
          if cfg.useCache then { g with cache := stored2 } else g
        ⟨.ok cost, g2, false, 1, []⟩

/-- A sequence of evaluations, threading the mutable statics. -/
def runEvals (cfg : Config) (oracle : Oracle) (ready probeOn : Bool) :
    List StateV → Globals → List (Except Unit Int) × Globals
  | [], g => ([], g)
  | s :: rest, g =>
    let r := compute_heuristic cfg oracle ready probeOn s g
    let tail := runEvals cfg oracle ready probeOn rest r.glob
    (r.value :: tail.1, tail.2)

/-- Modelled from the spec: the reserved DEAD-END sentinel the host search
understands, "a reserved sentinel distinct from any valid non-negative
cost" (the relaxation-heuristic base classes that define it are not under
src/); Fast Downward uses -1. -/
def DEAD_END : Int := -1

/-- Modelled from the spec (section 4.1): one round of relaxed (delete
relaxation) forward propagation: every operator whose preconditions are
all reached adds its effects.  The propagation engine itself
(additive_heuristic / relaxation_heuristic) is not under src/. -/
def relaxedStep (ops : List FDOperator) (r : List (ℕ × ℕ)) : List (ℕ × ℕ) :=
  ops.foldl
    (fun acc op =>
      if op.preconds.all (fun pc => decide (pc ∈ acc)) then
        acc ++ op.effects.filter (fun e => decide (e ∉ acc))
      else acc)
    r

/-- Iterate the relaxed propagation round. -/
def relaxedIter (ops : List FDOperator) : ℕ → List (ℕ × ℕ) → List (ℕ × ℕ)
  | 0, r => r
  | n + 1, r => relaxedIter ops n (relaxedStep ops r)

/-- Modelled from the spec: the set of facts reachable from the state
under delete relaxation.  Iterating one more round than the total number
of effect facts reaches the closure. -/
def relaxedReach (ops : List FDOperator) (s : StateV) : List (ℕ × ℕ) :=
  relaxedIter ops ((ops.map (fun op => op.effects.length)).sum + 1) s.enum

/-- Modelled from the spec (sections 4.1 and 7): the state is a dead end
when some goal fact is not relaxed-reachable ("no sequence of relaxed
operator applications from the initial state can set every goal
proposition's cost to a finite value"). -/
def relaxedDeadEnd (ops : List FDOperator) (goal : List (ℕ × ℕ)) (s : StateV) : Bool :=
  goal.any fun gfact => decide (gfact ∉ relaxedReach ops s)

/-- Soundness predicate for the memoization cache: every entry is the
normalized Oracle value of some state with that fingerprint. -/
def CacheOK (oracle : Oracle) (c : List (ℕ × Int)) : Prop :=
  ∀ p ∈ c, ∃ s : StateV, hash_state_values s = p.1 ∧ p.2 = mainValue oracle s

/-- `ensure_python_ready` (lines 164-209): fails when no module name is
configured, when the module cannot be imported, or when the entry-point
attribute is missing; the failure is re-raised after being logged.  The
Python environment is modelled as a list of modules with their attribute
names. -/
def ensure_python_ready (env : List (String × List String))
    (moduleName funcName : String) : Except Unit Unit :=
  if moduleName = "" then .error ()
  else
    match env.lookup moduleName with
    | none => .error ()
    | some attrs => if funcName ∈ attrs then .ok () else .error ()

/-- The constructor's initialization step (lines 119-150): it calls
`ensure_python_ready` and does not catch its exception, so a failure
propagates and the evaluator instance is never produced; on success the
readiness flag is `true`. -/
def initAntPlan (env : List (String × List String))
    (moduleName funcName : String) : Except Unit Bool :=
  match ensure_python_ready env moduleName funcName with
  | .error e => .error e
  | .ok _ => .ok true

section RatReducible

/- The library marks rational addition and multiplication irreducible;
lift that locally so concrete runs of the embedding evaluate by
`rfl`/`decide`. -/
attribute [local semireducible] Rat.add Rat.mul Rat.inv Rat.sub

/-- A cache lookup only answers with an entry of the cache. -/
theorem cacheFind_mem {k : ℕ} {v : Int} :
    ∀ {c : List (ℕ × Int)}, cacheFind k c = some v → (k, v) ∈ c := by
  intro c
  induction c with
  | nil => intro h; simp [cacheFind] at h
  | cons p rest ih =>
    intro h
    by_cases hpk : p.1 = k
    · rw [cacheFind, if_pos hpk] at h
      injection h with h2
      subst h2
      subst hpk
      exact List.mem_cons_self _ _
    · rw [cacheFind, if_neg hpk] at h
      exact List.mem_cons_of_mem _ (ih h)

/-- The normalized score is never negative (the final clamp). -/
theorem normalize_score_nonneg (d : Dbl) : 0 ≤ normalize_score d := by
  cases d <;> simp only [normalize_score] <;> omega

/-- The value computed by the try/catch block is never negative. -/
theorem mainValue_nonneg (oracle : Oracle) (s : StateV) :
    0 ≤ mainValue oracle s := by
  unfold mainValue
  cases oracle s with
  | ok d => exact normalize_score_nonneg d
  | error e => exact le_refl 0

/-- Values that fit in a 32-bit int are unchanged by the conversion. -/
theorem toInt32_eq_of_range {n : Int} (h1 : -(2 ^ 31) ≤ n) (h2 : n < 2 ^ 31) :
    toInt32 n = n := by
  unfold toInt32
  rw [Int.emod_eq_of_lt (by omega) (by omega)]
  omega

/-- Evaluation of `compute_heuristic` on a cache hit (lines 346-354). -/
theorem compute_hit (cfg : Config) (oracle : Oracle) (ready probeOn : Bool)
    (s : StateV) (g : Globals) (v : Int)
    (hfind : (if cfg.useCache then
        cacheFind (hash_state_values s) g.cache else none) = some v) :
    compute_heuristic cfg oracle ready probeOn s g =
      ⟨.ok v, { g with evalCount := g.evalCount + 1 }, true, 0, []⟩ := by
  unfold compute_heuristic
  simp only [hfind]

/-- Evaluation of `compute_heuristic` on a cache miss when the periodic
probe is not triggered: score, store, return. -/
theorem compute_miss_noprobe (cfg : Config) (oracle : Oracle) (probeOn : Bool)
    (s : StateV) (g : Globals)
    (hfind : (if cfg.useCache then
        cacheFind (hash_state_values s) g.cache else none) = none)
    (hnp : (probeOn &&
        should_explore_now cfg.explorationFrequency (g.evalCount + 1)) = false) :
    compute_heuristic cfg oracle true probeOn s g =
      ⟨.ok (mainValue oracle s),
        { cache :=
            if cfg.useCache then
              cacheInsert (hash_state_values s) (mainValue oracle s)
                (maybe_evict_cache cfg.useCache cfg.cacheMaxEntries g.cache)
            else g.cache,
          evalCount := g.evalCount + 1,
          explorationCount := g.explorationCount,
          explored := g.explored },
        false, 1, []⟩ := by
  unfold compute_heuristic
  simp only [hfind, hnp]
  by_cases hc : cfg.useCache <;> simp [hc]

/-- Evaluation of `compute_heuristic` on a cache miss with Python not
ready: the call throws (lines 356-358). -/
theorem compute_notready (cfg : Config) (oracle : Oracle) (probeOn : Bool)
    (s : StateV) (g : Globals)
    (hfind : (if cfg.useCache then
        cacheFind (hash_state_values s) g.cache else none) = none) :
    compute_heuristic cfg oracle false probeOn s g =
      ⟨.error (), { g with evalCount := g.evalCount + 1 }, false, 0, []⟩ := by
  unfold compute_heuristic
  simp [hfind]

/-- Evaluation of `compute_heuristic` on a cache miss when the periodic
probe fires: the probe runs after the value is computed; a probe fault
escapes (and nothing is cached), otherwise the value is stored and
returned. -/
theorem compute_miss_probe (cfg : Config) (oracle : Oracle) (probeOn : Bool)
    (s : StateV) (g : Globals)
    (hfind : (if cfg.useCache then
        cacheFind (hash_state_values s) g.cache else none) = none)
    (hp : (probeOn &&
        should_explore_now cfg.explorationFrequency (g.evalCount + 1)) = true) :
    compute_heuristic cfg oracle true probeOn s g =
      if (explore_from_state oracle cfg s (mainValue oracle s) g.explored).err then
        ⟨.error (),
          { cache := g.cache, evalCount := g.evalCount + 1,
            explorationCount := g.explorationCount + 1,
            explored :=
              (explore_from_state oracle cfg s (mainValue oracle s) g.explored).explored },
          false,
          1 + (explore_from_state oracle cfg s (mainValue oracle s) g.explored).oracleCalls,
          (explore_from_state oracle cfg s (mainValue oracle s) g.explored).preferred⟩
      else
        ⟨.ok (mainValue oracle s),
          { cache :=
              if cfg.useCache then
                cacheInsert (hash_state_values s) (mainValue oracle s)
                  (maybe_evict_cache cfg.useCache cfg.cacheMaxEntries g.cache)
              else g.cache,
            evalCount := g.evalCount + 1,
            explorationCount := g.explorationCount + 1,
            explored :=
              (explore_from_state oracle cfg s (mainValue oracle s) g.explored).explored },
          false,
          1 + (explore_from_state oracle cfg s (mainValue oracle s) g.explored).oracleCalls,
          (explore_from_state oracle cfg s (mainValue oracle s) g.explored).preferred⟩ := by
  unfold compute_heuristic
  simp only [hfind, hp]
  by_cases herr : (explore_from_state oracle cfg s (mainValue oracle s) g.explored).err
    <;> by_cases hc : cfg.useCache <;> simp [herr, hc]

/-- Folding the hash update keeps the accumulator a 64-bit value. -/
theorem hashPairs_aux_lt (ps : List (ℕ × ℕ)) :
    ∀ h : ℕ, h < 2 ^ 64 →
      ps.foldl (fun h p => fnv1a_64_update h (mixPair p.1 p.2)) h < 2 ^ 64 := by
  induction ps with
  | nil => intro h hh; simpa using hh
  | cons p rest ih =>
    intro h hh
    rw [List.foldl_cons]
    exact ih _ (Nat.mod_lt _ (by norm_num))

/-- C10 counterexample: the fingerprint of the state `[0, 1]` is the fold
of its pairs `[(0, 0), (1, 1)]`, and feeding the same pairs in the
opposite order yields a different 64-bit hash, so the combination is not
order-independent. -/
theorem c10_counterexample :
    hash_state_values [0, 1] = hashPairs [(0, 0), (1, 1)] ∧
    hashPairs [(1, 1), (0, 0)] ≠ hashPairs [(0, 0), (1, 1)] := by
  exact ⟨rfl, by decide⟩

/-- C10 (amended): the state fingerprint is an order-sensitive rolling
FNV-1a fold: it processes the `(var_id, value)` pairs of the state in
ascending `var_id` order, extending the fold one pair at a time, and the
result is always a 64-bit value.  It is deterministic in that pair
sequence, but permuting the pairs generally changes the hash. -/
theorem c10_theorem (ps : List (ℕ × ℕ)) (p : ℕ × ℕ) (s : StateV) :
    hashPairs (ps ++ [p]) = fnv1a_64_update (hashPairs ps) (mixPair p.1 p.2) ∧
    hash_state_values s = hashPairs s.enum ∧
    hashPairs ps < 2 ^ 64 := by
  refine ⟨?_, rfl, hashPairs_aux_lt ps fnvOffset (by decide)⟩
  unfold hashPairs
  rw [List.foldl_append, List.foldl_cons, List.foldl_nil]

/-- C5 counterexample: the Oracle score -3000000000 is negative, yet the
normalized value is 1294967296, not 0: `std::lround` yields -3000000000,
whose conversion to a 32-bit `int` wraps to the positive value
1294967296, which the final clamp leaves unchanged.  The claim that every
negative score is clamped to 0 therefore fails. -/
theorem c5_counterexample :
    ((-3000000000 : ℚ) < 0) ∧
    normalize_score (.finite (-3000000000)) = 1294967296 ∧
    normalize_score (.finite (-3000000000)) ≠ 0 := by
  refine ⟨by decide, by decide, by decide⟩

/-- C5 (amended): a completed evaluation never returns a negative value
and NaN or infinite scores are normalized to 0; a finite score whose
`std::lround` rounding fits in a 32-bit `int` is rounded to the nearest
integer (halfway away from zero) with negative results clamped to 0, but
a score whose rounding exceeds the `int` range wraps modulo `2 ^ 32`
before the clamp and can produce a positive value instead of 0. -/
theorem c5_theorem (d : Dbl) (q : ℚ)
    (h1 : -(2 ^ 31) ≤ lround q) (h2 : lround q < 2 ^ 31)
    (oracle : Oracle) (s : StateV) :
    0 ≤ normalize_score d ∧
    normalize_score .nan = 0 ∧
    normalize_score .posInf = 0 ∧
    normalize_score .negInf = 0 ∧
    normalize_score (.finite q) = max (lround q) 0 ∧
    0 ≤ mainValue oracle s := by
  refine ⟨normalize_score_nonneg d, rfl, rfl, rfl, ?_, mainValue_nonneg oracle s⟩
  simp only [normalize_score, toInt32_eq_of_range h1 h2]
  omega

/-- C5 witness: instantiating the amended claim at NaN and the score 1/2
(whose rounding 1 is in range). -/
theorem c5_witness :
    0 ≤ normalize_score .nan ∧
    normalize_score .nan = 0 ∧
    normalize_score .posInf = 0 ∧
    normalize_score .negInf = 0 ∧
    normalize_score (.finite (1 / 2)) = max (lround (1 / 2)) 0 ∧
    0 ≤ mainValue (fun _ => .ok (.finite 0)) [0] :=
  c5_theorem .nan (1 / 2) (by decide) (by decide) (fun _ => .ok (.finite 0)) [0]

/-- C1 counterexample: with no operators and goal `(0, 1)`, the state
`[0]` is a relaxed dead end, yet `compute_heuristic` returns the
Oracle-derived value 5, not the DEAD-END sentinel: the function never
consults relaxed reachability. -/
theorem c1_counterexample :
    relaxedDeadEnd [] [(0, 1)] [0] = true ∧
    (compute_heuristic ⟨false, 500000, 10, 2, mkRat 9 10, 20, []⟩
        (fun _ => .ok (.finite 5)) true true [0] ⟨[], 0, 0, []⟩).value = .ok 5 ∧
    (5 : Int) ≠ DEAD_END := by
  refine ⟨rfl, rfl, by decide⟩

/-- C1 (amended): `compute_heuristic` does not consult relaxed
reachability; even for an evaluated state from which the goal is
unreachable under delete relaxation, every value it returns (cached or
freshly computed) is non-negative and is never the DEAD-END sentinel. -/
theorem c1_theorem (cfg : Config) (oracle : Oracle) (probeOn : Bool)
    (goal : List (ℕ × ℕ)) (s : StateV) (g : Globals) (v : Int)
    (_hdead : relaxedDeadEnd cfg.ops goal s = true)
    (hcache : ∀ p ∈ g.cache, 0 ≤ p.2)
    (hval : (compute_heuristic cfg oracle true probeOn s g).value = .ok v) :
    0 ≤ v ∧ v ≠ DEAD_END := by
  have hv : 0 ≤ v := by
    rcases hfind : (if cfg.useCache then
        cacheFind (hash_state_values s) g.cache else none) with _ | w
    · by_cases hp : (probeOn &&
          should_explore_now cfg.explorationFrequency (g.evalCount + 1)) = true
      · rw [compute_miss_probe cfg oracle probeOn s g hfind hp] at hval
        rcases hperr : (explore_from_state oracle cfg s
            (mainValue oracle s) g.explored).err with _ | _
        · simp only [hperr, Bool.false_eq_true, if_false] at hval
          simp at hval
          exact hval ▸ mainValue_nonneg oracle s
        · simp [hperr] at hval
      · rw [compute_miss_noprobe cfg oracle probeOn s g hfind
          (by simpa using hp)] at hval
        simp at hval
        exact hval ▸ mainValue_nonneg oracle s
    · rw [compute_hit cfg oracle true probeOn s g w hfind] at hval
      simp at hval
      subst hval
      rcases hc : cfg.useCache with _ | _
      · rw [hc] at hfind; simp at hfind
      · rw [hc] at hfind
        simp at hfind
        exact hcache _ (cacheFind_mem hfind)
  refine ⟨hv, ?_⟩
  intro hdeq
  rw [hdeq] at hv
  exact absurd hv (by decide)

/-- C1 witness: the dead-end counterexample instance discharges the
hypotheses of the amended claim. -/
theorem c1_witness :
    0 ≤ (5 : Int) ∧ (5 : Int) ≠ DEAD_END :=
  c1_theorem ⟨false, 500000, 10, 2, mkRat 9 10, 20, []⟩
    (fun _ => .ok (.finite 5)) true [(0, 1)] [0] ⟨[], 0, 0, []⟩ 5
    rfl (by simp) rfl

/-- C4 counterexample: the Oracle succeeds on the evaluated state `[0]`
but raises on the successor `[1]` scored during the lookahead probe
(evaluation count 5 triggers exploration); the raise is outside the
try/catch of `compute_heuristic`, so the call throws instead of returning
a value: a probe-time Oracle fault does propagate to the outer search. -/
theorem c4_counterexample :
    (compute_heuristic ⟨false, 500000, 10, 2, mkRat 9 10, 20, [⟨[], [(0, 1)]⟩]⟩
        (fun st => if st = [0] then .ok (.finite 2) else .error ()) true true [0]
        ⟨[], 4, 0, []⟩).value = .error () := by
  rfl

/-- C4 (amended): an Oracle fault while scoring the evaluated state
itself is recoverable: `compute_heuristic` substitutes the fallback value
0 and returns normally (shown here for evaluations on which the periodic
probe does not fire); faults raised while scoring successor states during
the lookahead probe, however, are not caught and propagate out of
`compute_heuristic`. -/
theorem c4_theorem (cfg : Config) (oracle : Oracle) (probeOn : Bool)
    (s : StateV) (g : Globals)
    (hnc : cfg.useCache = false)
    (herr : oracle s = .error ())
    (hnp : should_explore_now cfg.explorationFrequency (g.evalCount + 1) = false) :
    (compute_heuristic cfg oracle true probeOn s g).value = .ok 0 := by
  have hmain : mainValue oracle s = 0 := by
    unfold mainValue
    rw [herr]
  rw [compute_miss_noprobe cfg oracle probeOn s g (by simp [hnc])
    (by simp [hnp]), hmain]

/-- C4 witness: a concrete always-raising Oracle on an evaluation without
a probe: the fallback 0 is returned. -/
theorem c4_witness :
    (compute_heuristic ⟨false, 500000, 10, 2, mkRat 9 10, 20, []⟩
        (fun _ => .error ()) true true [0] ⟨[], 0, 0, []⟩).value = .ok 0 :=
  c4_theorem ⟨false, 500000, 10, 2, mkRat 9 10, 20, []⟩ (fun _ => .error ())
    true [0] ⟨[], 0, 0, []⟩ rfl rfl (by decide)

/-- C3 counterexample: cache capacity 1, states `[0]` and `[1]`, constant
Oracle.  After the second evaluation the cache holds 2 entries (not at
most 1: eviction only clears when an insertion finds the count already
above the bound), and a third evaluation of the first state is answered
by the cache without any Oracle call, rather than recomputed. -/
theorem c3_counterexample :
    ((compute_heuristic ⟨true, 1, 10, 2, mkRat 9 10, 20, []⟩
        (fun _ => .ok (.finite 5)) true true [1]
        (compute_heuristic ⟨true, 1, 10, 2, mkRat 9 10, 20, []⟩
          (fun _ => .ok (.finite 5)) true true [0]
          ⟨[], 0, 0, []⟩).glob).glob.cache).length = 2 ∧
    (compute_heuristic ⟨true, 1, 10, 2, mkRat 9 10, 20, []⟩
        (fun _ => .ok (.finite 5)) true true [0]
        (compute_heuristic ⟨true, 1, 10, 2, mkRat 9 10, 20, []⟩
          (fun _ => .ok (.finite 5)) true true [1]
          (compute_heuristic ⟨true, 1, 10, 2, mkRat 9 10, 20, []⟩
            (fun _ => .ok (.finite 5)) true true [0]
            ⟨[], 0, 0, []⟩).glob).glob).cacheHit = true ∧
    (compute_heuristic ⟨true, 1, 10, 2, mkRat 9 10, 20, []⟩
        (fun _ => .ok (.finite 5)) true true [0]
        (compute_heuristic ⟨true, 1, 10, 2, mkRat 9 10, 20, []⟩
          (fun _ => .ok (.finite 5)) true true [1]
          (compute_heuristic ⟨true, 1, 10, 2, mkRat 9 10, 20, []⟩
            (fun _ => .ok (.finite 5)) true true [0]
            ⟨[], 0, 0, []⟩).glob).glob).oracleCalls = 0 := by
  refine ⟨by decide, by decide, by decide⟩

/-- C3 (amended): with cache capacity 1 and a fresh process, evaluating
two states with distinct fingerprints leaves 2 entries in the cache (the
whole-cache clear runs only when an insertion finds the entry count
already exceeding the bound), and a third evaluation of the first state
is a cache hit that performs no Oracle call and returns the cached
value. -/
theorem c3_theorem (cfg : Config) (oracle : Oracle) (s1 s2 : StateV)
    (g0 : Globals)
    (hc : cfg.useCache = true) (hcap : cfg.cacheMaxEntries = 1)
    (hh : hash_state_values s1 ≠ hash_state_values s2)
    (hg : g0.cache = []) (he : g0.evalCount = 0) :
    ((compute_heuristic cfg oracle true true s2
        (compute_heuristic cfg oracle true true s1 g0).glob).glob.cache).length = 2 ∧
    (compute_heuristic cfg oracle true true s1
      (compute_heuristic cfg oracle true true s2
        (compute_heuristic cfg oracle true true s1 g0).glob).glob).cacheHit = true ∧
    (compute_heuristic cfg oracle true true s1
      (compute_heuristic cfg oracle true true s2
        (compute_heuristic cfg oracle true true s1 g0).glob).glob).oracleCalls = 0 ∧
    (compute_heuristic cfg oracle true true s1
      (compute_heuristic cfg oracle true true s2
        (compute_heuristic cfg oracle true true s1 g0).glob).glob).value =
      .ok (mainValue oracle s1) := by
  have hh2 : hash_state_values s2 ≠ hash_state_values s1 := fun h => hh h.symm
  have h1 : compute_heuristic cfg oracle true true s1 g0 =
      ⟨.ok (mainValue oracle s1),
        { cache := if cfg.useCache then
            cacheInsert (hash_state_values s1) (mainValue oracle s1)
              (maybe_evict_cache cfg.useCache cfg.cacheMaxEntries g0.cache)
          else g0.cache,
          evalCount := g0.evalCount + 1,
          explorationCount := g0.explorationCount,
          explored := g0.explored },
        false, 1, []⟩ :=
    compute_miss_noprobe cfg oracle true s1 g0 (by simp [hc, hg, cacheFind])
      (by simp [should_explore_now, he]; decide)
  have hcache1 : (compute_heuristic cfg oracle true true s1 g0).glob.cache =
      [(hash_state_values s1, mainValue oracle s1)] := by
    rw [h1]
    simp [hc, hg, maybe_evict_cache, cacheInsert, cacheFind]
  have hev1 : (compute_heuristic cfg oracle true true s1 g0).glob.evalCount = 1 := by
    rw [h1]
    simp [he]
  have h2 : compute_heuristic cfg oracle true true s2
      (compute_heuristic cfg oracle true true s1 g0).glob =
      ⟨.ok (mainValue oracle s2),
        { cache := if cfg.useCache then
            cacheInsert (hash_state_values s2) (mainValue oracle s2)
              (maybe_evict_cache cfg.useCache cfg.cacheMaxEntries
                (compute_heuristic cfg oracle true true s1 g0).glob.cache)
          else (compute_heuristic cfg oracle true true s1 g0).glob.cache,
          evalCount := (compute_heuristic cfg oracle true true s1 g0).glob.evalCount + 1,
          explorationCount :=
            (compute_heuristic cfg oracle true true s1 g0).glob.explorationCount,
          explored := (compute_heuristic cfg oracle true true s1 g0).glob.explored },
        false, 1, []⟩ :=
    compute_miss_noprobe cfg oracle true s2 _
      (by simp [hc, hcache1, cacheFind, hh])
      (by simp [should_explore_now, hev1]; decide)
  have hcache2 : (compute_heuristic cfg oracle true true s2
      (compute_heuristic cfg oracle true true s1 g0).glob).glob.cache =
      [(hash_state_values s2, mainValue oracle s2),
       (hash_state_values s1, mainValue oracle s1)] := by
    rw [h2]
    simp [hc, hcache1, hcap, maybe_evict_cache, cacheInsert, cacheFind, hh]
  have h3 : compute_heuristic cfg oracle true true s1
      (compute_heuristic cfg oracle true true s2
        (compute_heuristic cfg oracle true true s1 g0).glob).glob =
      ⟨.ok (mainValue oracle s1),
        { (compute_heuristic cfg oracle true true s2
            (compute_heuristic cfg oracle true true s1 g0).glob).glob with
          evalCount := (compute_heuristic cfg oracle true true s2
            (compute_heuristic cfg oracle true true s1 g0).glob).glob.evalCount + 1 },
        true, 0, []⟩ :=
    compute_hit cfg oracle true true s1 _ (mainValue oracle s1)
      (by simp [hc, hcache2, cacheFind, hh2])
  refine ⟨?_, ?_, ?_, ?_⟩
  · rw [hcache2]
    rfl
  · rw [h3]
  · rw [h3]
  · rw [h3]

/-- C3 witness: the amended claim instantiated at capacity 1, states
`[0]` and `[1]`, and a constant Oracle. -/
theorem c3_witness :
    ((compute_heuristic ⟨true, 1, 10, 2, mkRat 9 10, 20, []⟩
        (fun _ => .ok (.finite 7)) true true [1]
        (compute_heuristic ⟨true, 1, 10, 2, mkRat 9 10, 20, []⟩
          (fun _ => .ok (.finite 7)) true true [0]
          ⟨[], 0, 0, []⟩).glob).glob.cache).length = 2 ∧
    (compute_heuristic ⟨true, 1, 10, 2, mkRat 9 10, 20, []⟩
        (fun _ => .ok (.finite 7)) true true [0]
        (compute_heuristic ⟨true, 1, 10, 2, mkRat 9 10, 20, []⟩
          (fun _ => .ok (.finite 7)) true true [1]
          (compute_heuristic ⟨true, 1, 10, 2, mkRat 9 10, 20, []⟩
            (fun _ => .ok (.finite 7)) true true [0]
            ⟨[], 0, 0, []⟩).glob).glob).cacheHit = true ∧
    (compute_heuristic ⟨true, 1, 10, 2, mkRat 9 10, 20, []⟩
        (fun _ => .ok (.finite 7)) true true [0]
        (compute_heuristic ⟨true, 1, 10, 2, mkRat 9 10, 20, []⟩
          (fun _ => .ok (.finite 7)) true true [1]
          (compute_heuristic ⟨true, 1, 10, 2, mkRat 9 10, 20, []⟩
            (fun _ => .ok (.finite 7)) true true [0]
            ⟨[], 0, 0, []⟩).glob).glob).oracleCalls = 0 ∧
    (compute_heuristic ⟨true, 1, 10, 2, mkRat 9 10, 20, []⟩
        (fun _ => .ok (.finite 7)) true true [0]
        (compute_heuristic ⟨true, 1, 10, 2, mkRat 9 10, 20, []⟩
          (fun _ => .ok (.finite 7)) true true [1]
          (compute_heuristic ⟨true, 1, 10, 2, mkRat 9 10, 20, []⟩
            (fun _ => .ok (.finite 7)) true true [0]
            ⟨[], 0, 0, []⟩).glob).glob).value =
      .ok (mainValue (fun _ => .ok (.finite 7)) [0]) :=
  c3_theorem ⟨true, 1, 10, 2, mkRat 9 10, 20, []⟩ (fun _ => .ok (.finite 7))
    [0] [1] ⟨[], 0, 0, []⟩ rfl rfl (by decide) rfl rfl

/-- The strict double comparison is asymmetric. -/
theorem dblLt_asymm (a b : Dbl) : dblLt a b = true → dblLt b a = false := by
  cases a <;> cases b <;> simp [dblLt]
  exact fun h => le_of_lt h

/-- The comparator order is total (even in the presence of NaN). -/
theorem scoreLe_total (a b : ℕ × FDOperator × Dbl) :
    scoreLe a b = true ∨ scoreLe b a = true := by
  unfold scoreLe
  by_cases h : dblLt b.2.2 a.2.2 = true
  · right
    rw [dblLt_asymm _ _ h]
    rfl
  · left
    rw [Bool.not_eq_true] at h
    rw [h]
    rfl

/-- Inserting into a sorted list yields a permutation of consing. -/
theorem insertLe_perm {α : Type} (le : α → α → Bool) (x : α) :
    ∀ l : List α, (insertLe le x l).Perm (x :: l) := by
  intro l
  induction l with
  | nil => simp [insertLe]
  | cons y ys ih =>
    rw [insertLe]
    split
    · exact List.Perm.refl _
    · exact (ih.cons y).trans (List.Perm.swap x y ys)

/-- The insertion sort returns a permutation of its input. -/
theorem sortLe_perm {α : Type} (le : α → α → Bool) :
    ∀ l : List α, (sortLe le l).Perm l := by
  intro l
  induction l with
  | nil => exact List.Perm.refl _
  | cons x xs ih => exact (insertLe_perm le x (sortLe le xs)).trans (ih.cons x)

/-- Inserting into a list sorted by a total comparator keeps it sorted
(adjacent-pairs ordering). -/
theorem chain_insertLe {α : Type} (le : α → α → Bool)
    (htot : ∀ a b, le a b = true ∨ le b a = true) (x : α) :
    ∀ l : List α, List.Chain' (fun a b => le a b = true) l →
      List.Chain' (fun a b => le a b = true) (insertLe le x l) := by
  intro l
  induction l with
  | nil => intro _; simp [insertLe]
  | cons y ys ih =>
    intro hch
    rw [insertLe]
    split
    · exact List.chain'_cons.mpr ⟨by assumption, hch⟩
    · have hxy : ¬ le x y = true := by assumption
      have hyx : le y x = true := by
        rcases htot x y with h | h
        · exact absurd h hxy
        · exact h
      have hys : List.Chain' (fun a b => le a b = true) ys :=
        (List.chain'_cons'.mp hch).2
      rw [List.chain'_cons']
      refine ⟨?_, ih hys⟩
      intro hd hhd
      cases ys with
      | nil =>
        simp [insertLe] at hhd
        rw [← hhd]
        exact hyx
      | cons z zs =>
        rw [insertLe] at hhd
        split at hhd
        · simp at hhd
          rw [← hhd]
          exact hyx
        · simp at hhd
          rw [← hhd]
          exact (List.chain'_cons.mp hch).1

/-- The insertion sort by a total comparator sorts. -/
theorem chain_sortLe {α : Type} (le : α → α → Bool)
    (htot : ∀ a b, le a b = true ∨ le b a = true) :
    ∀ l : List α, List.Chain' (fun a b => le a b = true) (sortLe le l) := by
  intro l
  induction l with
  | nil => simp [sortLe]
  | cons x xs ih => exact chain_insertLe le htot x (sortLe le xs) ih

/-- The promising list built by the operator loop is exactly the filter
of the scored successors by the strict improvement test. -/
theorem probeScan_promising_filter (oracle : Oracle) (s : StateV)
    (cost : Int) (thr : ℚ) :
    ∀ (l : List (ℕ × FDOperator)) (b : Int),
      (probeScan oracle s cost thr l b).promising =
        (probeScan oracle s cost thr l b).evaluated.filter
          (fun t => dblLt t.2.2 (.finite ((cost : ℚ) * thr))) := by
  intro l
  induction l with
  | nil => intro b; rfl
  | cons iop rest ih =>
    intro b
    rw [probeScan]
    by_cases happ : isApplicable iop.2 s = false
    · rw [if_pos happ]
      exact ih b
    · rw [if_neg happ]
      by_cases hb : b - 1 < 0
      · rw [if_pos hb]
        rfl
      · rw [if_neg hb]
        rcases horacle : oracle (applyOp iop.2 s) with e | sc
        · simp [horacle]
        · simp only [horacle]
          by_cases hlt : dblLt sc (.finite ((cost : ℚ) * thr)) = true
          · simp [hlt, ih (b - 1)]
          · rw [Bool.not_eq_true] at hlt
            simp [hlt, ih (b - 1)]

/-- At depth 1 the probe marks preferred exactly the indices of the first
three entries of the sorted promising list (the recursion at depth 0
contributes nothing). -/
theorem probe_one_preferred (oracle : Oracle) (cfg : Config) (s : StateV)
    (cost : Int) (b : Int) (ex : List ℕ)
    (hb : 0 < b) (hex : hash_state_values s ∉ ex)
    (herr : (probeScan oracle s cost cfg.improvementThreshold
      cfg.ops.enum b).err = false) :
    (probe oracle cfg 1 s cost b ex).preferred =
      ((sortLe scoreLe (probeScan oracle s cost cfg.improvementThreshold
        cfg.ops.enum b).promising).take 3).map (fun t => t.1) := by
  show (probe oracle cfg (0 + 1) s cost b ex).preferred = _
  rw [probe]
  rw [if_neg (by omega)]
  simp only []
  rw [if_neg hex]
  simp only [herr, Bool.false_eq_true, if_false]
  rcases hsort : sortLe scoreLe (probeScan oracle s cost
      cfg.improvementThreshold cfg.ops.enum b).promising with _ | ⟨c1, rest⟩
  · simp
  · simp only []
    split
    · simp
    · simp only [probe]
      rcases rest with _ | ⟨c2, rest2⟩
      · simp
      · split <;> simp

/-- C8: in one `probe_successors` level a successor is retained as
promising exactly when its Oracle score is strictly below
`current_cost * improvement_threshold` (among the applicable successors
scored within the budget); the retained candidates are sorted by score
ascending (a sorted permutation); and only the first three of them are
marked preferred. -/
theorem c8_theorem (oracle : Oracle) (cfg : Config) (s : StateV) (cost : Int)
    (thr : ℚ) (l : List (ℕ × FDOperator)) (b : Int) (ex : List ℕ)
    (hb : 0 < b) (hex : hash_state_values s ∉ ex)
    (herr : (probeScan oracle s cost cfg.improvementThreshold
      cfg.ops.enum b).err = false) :
    (probeScan oracle s cost thr l b).promising =
      (probeScan oracle s cost thr l b).evaluated.filter
        (fun t => dblLt t.2.2 (.finite ((cost : ℚ) * thr))) ∧
    List.Chain' (fun a a' => scoreLe a a' = true)
      (sortLe scoreLe (probeScan oracle s cost thr l b).promising) ∧
    (sortLe scoreLe (probeScan oracle s cost thr l b).promising).Perm
      (probeScan oracle s cost thr l b).promising ∧
    (probe oracle cfg 1 s cost b ex).preferred =
      ((sortLe scoreLe (probeScan oracle s cost cfg.improvementThreshold
        cfg.ops.enum b).promising).take 3).map (fun t => t.1) :=
  ⟨probeScan_promising_filter oracle s cost thr l b,
    chain_sortLe scoreLe scoreLe_total _,
    sortLe_perm scoreLe _,
    probe_one_preferred oracle cfg s cost b ex hb hex herr⟩

/-- C8 witness: a two-operator task with cost 10 and threshold 9/10; the
successors score 3 and 2, both below 9, and the sorted promising list
yields the preferred indices. -/
theorem c8_witness :
    (probeScan (fun st => .ok (.finite (if st = [1, 0] then 3
        else if st = [0, 1] then 2 else 100))) [0, 0] 10 (mkRat 9 10)
        ([⟨[], [(0, 1)]⟩, ⟨[], [(1, 1)]⟩] : List FDOperator).enum 20).promising =
      (probeScan (fun st => .ok (.finite (if st = [1, 0] then 3
        else if st = [0, 1] then 2 else 100))) [0, 0] 10 (mkRat 9 10)
        ([⟨[], [(0, 1)]⟩, ⟨[], [(1, 1)]⟩] : List FDOperator).enum 20).evaluated.filter
        (fun t => dblLt t.2.2 (.finite ((10 : Int) * mkRat 9 10))) ∧
    List.Chain' (fun a a' => scoreLe a a' = true)
      (sortLe scoreLe (probeScan (fun st => .ok (.finite (if st = [1, 0] then 3
        else if st = [0, 1] then 2 else 100))) [0, 0] 10 (mkRat 9 10)
        ([⟨[], [(0, 1)]⟩, ⟨[], [(1, 1)]⟩] : List FDOperator).enum 20).promising) ∧
    (sortLe scoreLe (probeScan (fun st => .ok (.finite (if st = [1, 0] then 3
        else if st = [0, 1] then 2 else 100))) [0, 0] 10 (mkRat 9 10)
        ([⟨[], [(0, 1)]⟩, ⟨[], [(1, 1)]⟩] : List FDOperator).enum 20).promising).Perm
      (probeScan (fun st => .ok (.finite (if st = [1, 0] then 3
        else if st = [0, 1] then 2 else 100))) [0, 0] 10 (mkRat 9 10)
        ([⟨[], [(0, 1)]⟩, ⟨[], [(1, 1)]⟩] : List FDOperator).enum 20).promising ∧
    (probe (fun st => .ok (.finite (if st = [1, 0] then 3
        else if st = [0, 1] then 2 else 100)))
        ⟨false, 500000, 10, 2, mkRat 9 10, 20, [⟨[], [(0, 1)]⟩, ⟨[], [(1, 1)]⟩]⟩
        1 [0, 0] 10 20 []).preferred =
      ((sortLe scoreLe (probeScan (fun st => .ok (.finite (if st = [1, 0] then 3
        else if st = [0, 1] then 2 else 100))) [0, 0] 10
        (⟨false, 500000, 10, 2, mkRat 9 10, 20,
          [⟨[], [(0, 1)]⟩, ⟨[], [(1, 1)]⟩]⟩ : Config).improvementThreshold
        (⟨false, 500000, 10, 2, mkRat 9 10, 20,
          [⟨[], [(0, 1)]⟩, ⟨[], [(1, 1)]⟩]⟩ : Config).ops.enum 20).promising).take 3).map
        (fun t => t.1) :=
  c8_theorem (fun st => .ok (.finite (if st = [1, 0] then 3
      else if st = [0, 1] then 2 else 100)))
    ⟨false, 500000, 10, 2, mkRat 9 10, 20, [⟨[], [(0, 1)]⟩, ⟨[], [(1, 1)]⟩]⟩
    [0, 0] 10 (mkRat 9 10)
    ([⟨[], [(0, 1)]⟩, ⟨[], [(1, 1)]⟩] : List FDOperator).enum 20 []
    (by decide) (by decide) (by decide)

/-- The operator loop never increases the shared budget. -/
theorem probeScan_budget_le (oracle : Oracle) (s : StateV) (cost : Int)
    (thr : ℚ) :
    ∀ (l : List (ℕ × FDOperator)) (b : Int),
      (probeScan oracle s cost thr l b).budget ≤ b := by
  intro l
  induction l with
  | nil => intro b; exact le_refl b
  | cons iop rest ih =>
    intro b
    rw [probeScan]
    by_cases happ : isApplicable iop.2 s = false
    · rw [if_pos happ]
      exact ih b
    · rw [if_neg happ]
      by_cases hb : b - 1 < 0
      · rw [if_pos hb]
        show b - 1 ≤ b
        omega
      · rw [if_neg hb]
        rcases horacle : oracle (applyOp iop.2 s) with e | sc
        · simp only [horacle]
          show b - 1 ≤ b
          omega
        · simp only [horacle]
          have h1 := ih (b - 1)
          show (probeScan oracle s cost thr rest (b - 1)).budget ≤ b
          omega

/-- The operator loop performs at most as many Oracle calls as budget
units it consumes, and a call is only made while the decremented budget
is still non-negative. -/
theorem probeScan_calls_le (oracle : Oracle) (s : StateV) (cost : Int)
    (thr : ℚ) :
    ∀ (l : List (ℕ × FDOperator)) (b : Int), 0 ≤ b →
      ((probeScan oracle s cost thr l b).oracleCalls : Int) ≤
        b - max (probeScan oracle s cost thr l b).budget 0 := by
  intro l
  induction l with
  | nil =>
    intro b hb
    show ((0 : ℕ) : Int) ≤ b - max b 0
    omega
  | cons iop rest ih =>
    intro b hb
    rw [probeScan]
    by_cases happ : isApplicable iop.2 s = false
    · rw [if_pos happ]
      exact ih b hb
    · rw [if_neg happ]
      by_cases hbm : b - 1 < 0
      · rw [if_pos hbm]
        show ((0 : ℕ) : Int) ≤ b - max (b - 1) 0
        omega
      · rw [if_neg hbm]
        rcases horacle : oracle (applyOp iop.2 s) with e | sc
        · simp only [horacle]
          show ((1 : ℕ) : Int) ≤ b - max (b - 1) 0
          omega
        · simp only [horacle]
          have h1 := ih (b - 1) (by omega)
          have h2 := probeScan_budget_le oracle s cost thr rest (b - 1)
          show (((probeScan oracle s cost thr rest (b - 1)).oracleCalls + 1 : ℕ) : Int) ≤
            b - max (probeScan oracle s cost thr rest (b - 1)).budget 0
          omega

/-- The shared-budget invariant of the recursive probe: the budget never
increases, and the number of Oracle calls of the whole recursive probe is
bounded by the budget it consumed. -/
theorem probe_calls_budget (oracle : Oracle) (cfg : Config) :
    ∀ (d : ℕ) (s : StateV) (cost b : Int) (ex : List ℕ),
      max (probe oracle cfg d s cost b ex).budget 0 ≤ max b 0 ∧
      ((probe oracle cfg d s cost b ex).oracleCalls : Int) ≤
        max b 0 - max (probe oracle cfg d s cost b ex).budget 0 := by
  intro d
  induction d with
  | zero =>
    intro s cost b ex
    refine ⟨le_refl _, ?_⟩
    show ((0 : ℕ) : Int) ≤ max b 0 - max b 0
    omega
  | succ d ih =>
    intro s cost b ex
    by_cases hb : b ≤ 0
    · rw [probe, if_pos hb]
      refine ⟨le_refl _, ?_⟩
      show ((0 : ℕ) : Int) ≤ max b 0 - max b 0
      omega
    · rw [probe, if_neg hb]
      by_cases hex : hash_state_values s ∈ ex
      · rw [if_pos hex]
        refine ⟨le_refl _, ?_⟩
        show ((0 : ℕ) : Int) ≤ max b 0 - max b 0
        omega
      · rw [if_neg hex]
        try simp only []
        have hsb := probeScan_budget_le oracle s cost cfg.improvementThreshold
          cfg.ops.enum b
        have hsc := probeScan_calls_le oracle s cost cfg.improvementThreshold
          cfg.ops.enum b (by omega)
        by_cases herr : (probeScan oracle s cost cfg.improvementThreshold
            cfg.ops.enum b).err = true
        · rw [if_pos herr]
          constructor <;> (try simp) <;> omega
        · rw [if_neg herr]
          rcases hsort : sortLe scoreLe (probeScan oracle s cost
              cfg.improvementThreshold cfg.ops.enum b).promising with _ | ⟨c1, rest⟩
          · simp only [hsort]
            constructor <;> (try simp) <;> omega
          · simp only [hsort]
            by_cases hq : (probeScan oracle s cost cfg.improvementThreshold
                cfg.ops.enum b).budget ≤ 0
            · rw [if_pos hq]
              constructor <;> (try simp) <;> omega
            · rw [if_neg hq]
              try simp only []
              obtain ⟨h1b, h1c⟩ := ih (applyOp c1.2.1 s) (dblTruncToInt c1.2.2)
                (probeScan oracle s cost cfg.improvementThreshold cfg.ops.enum b).budget
                (if 10000 < (hash_state_values s :: ex).length then []
                 else hash_state_values s :: ex)
              simp only [List.length_cons] at h1b h1c
              by_cases h1err : (probe oracle cfg d (applyOp c1.2.1 s)
                  (dblTruncToInt c1.2.2)
                  (probeScan oracle s cost cfg.improvementThreshold cfg.ops.enum b).budget
                  (if 10000 < (hash_state_values s :: ex).length then []
                   else hash_state_values s :: ex)).err = true
              · rw [if_pos h1err]
                constructor <;> (try simp) <;> omega
              · rw [if_neg h1err]
                rcases rest with _ | ⟨c2, rest2⟩
                · try simp only []
                  constructor <;> (try simp) <;> omega
                · try simp only []
                  by_cases h1q : (probe oracle cfg d (applyOp c1.2.1 s)
                      (dblTruncToInt c1.2.2)
                      (probeScan oracle s cost cfg.improvementThreshold
                        cfg.ops.enum b).budget
                      (if 10000 < (hash_state_values s :: ex).length then []
                       else hash_state_values s :: ex)).budget ≤ 0
                  · rw [if_pos h1q]
                    constructor <;> (try simp) <;> omega
                  · rw [if_neg h1q]
                    try simp only []
                    obtain ⟨h2b, h2c⟩ := ih (applyOp c2.2.1 s) (dblTruncToInt c2.2.2)
                      (probe oracle cfg d (applyOp c1.2.1 s) (dblTruncToInt c1.2.2)
                        (probeScan oracle s cost cfg.improvementThreshold
                          cfg.ops.enum b).budget
                        (if 10000 < (hash_state_values s :: ex).length then []
                         else hash_state_values s :: ex)).budget
                      (probe oracle cfg d (applyOp c1.2.1 s) (dblTruncToInt c1.2.2)
                        (probeScan oracle s cost cfg.improvementThreshold
                          cfg.ops.enum b).budget
                        (if 10000 < (hash_state_values s :: ex).length then []
                         else hash_state_values s :: ex)).explored
                    simp only [List.length_cons] at h2b h2c
                    constructor <;> (try simp) <;> omega

/-- C6: every lookahead probe terminates (it is a total function of the
depth counter); a probe started at depth 0 or with a non-positive shared
budget stops immediately with no Oracle call; and one whole
`explore_from_state` probe performs at most `exploration_budget`
successor evaluations via the Oracle in total, the budget being shared
across the recursion. -/
theorem c6_theorem (oracle : Oracle) (cfg : Config) (s : StateV) (cost : Int)
    (ex : List ℕ) (d : ℕ) (s2 : StateV) (cost2 b : Int) (ex2 : List ℕ) (n : ℕ) :
    (explore_from_state oracle cfg s cost ex).oracleCalls ≤
      cfg.explorationBudget.toNat ∧
    probe oracle cfg 0 s2 cost2 b ex2 = ⟨[], ex2, b, 0, false⟩ ∧
    probe oracle cfg d s2 cost2 (-(n : Int)) ex2 =
      ⟨[], ex2, -(n : Int), 0, false⟩ := by
  refine ⟨?_, rfl, ?_⟩
  · obtain ⟨h1, h2⟩ := probe_calls_budget oracle cfg cfg.explorationDepth s cost
      cfg.explorationBudget ex
    unfold explore_from_state
    omega
  · cases d with
    | zero => rfl
    | succ d => rw [probe, if_pos (show -(n : Int) ≤ 0 by omega)]

/-- C7 counterexample: at the same input as the probe-fault run (Oracle
fine on the evaluated state, raising on its successor, evaluation count 5
so the probe fires), running the probe makes `compute_heuristic` raise
while skipping the probe returns the value 2; with the cache enabled the
cached contents diverge as well (nothing is stored on the faulting run).
So running vs. skipping the probe does change the returned cost and the
cached value. -/
theorem c7_counterexample :
    (compute_heuristic ⟨false, 500000, 10, 2, mkRat 9 10, 20, [⟨[], [(0, 1)]⟩]⟩
        (fun st => if st = [0] then .ok (.finite 2) else .error ()) true true [0]
        ⟨[], 4, 0, []⟩).value = .error () ∧
    (compute_heuristic ⟨false, 500000, 10, 2, mkRat 9 10, 20, [⟨[], [(0, 1)]⟩]⟩
        (fun st => if st = [0] then .ok (.finite 2) else .error ()) true false [0]
        ⟨[], 4, 0, []⟩).value = .ok 2 ∧
    (compute_heuristic ⟨true, 500000, 10, 2, mkRat 9 10, 20, [⟨[], [(0, 1)]⟩]⟩
        (fun st => if st = [0] then .ok (.finite 2) else .error ()) true true [0]
        ⟨[], 4, 0, []⟩).glob.cache = [] ∧
    (compute_heuristic ⟨true, 500000, 10, 2, mkRat 9 10, 20, [⟨[], [(0, 1)]⟩]⟩
        (fun st => if st = [0] then .ok (.finite 2) else .error ()) true false [0]
        ⟨[], 4, 0, []⟩).glob.cache =
      [(hash_state_values [0], 2)] := by
  refine ⟨rfl, rfl, rfl, rfl⟩

/-- C7 (amended): when the probe completes without an Oracle fault it
never changes the heuristic value: if an evaluation that runs the probe
returns a value, then the same evaluation with the probe skipped returns
exactly the same value and leaves exactly the same cache, and the
probeless run marks no preferred operators (the probe only adds to the
preferred set).  When an Oracle call inside the probe raises, running the
probe instead turns the evaluation into a raise and nothing is cached. -/
theorem c7_theorem (cfg : Config) (oracle : Oracle) (s : StateV) (g : Globals)
    (v : Int)
    (hval : (compute_heuristic cfg oracle true true s g).value = .ok v) :
    (compute_heuristic cfg oracle true false s g).value = .ok v ∧
    (compute_heuristic cfg oracle true false s g).glob.cache =
      (compute_heuristic cfg oracle true true s g).glob.cache ∧
    (compute_heuristic cfg oracle true false s g).preferred = [] := by
  rcases hfind : (if cfg.useCache then
      cacheFind (hash_state_values s) g.cache else none) with _ | w
  · by_cases hp : should_explore_now cfg.explorationFrequency (g.evalCount + 1) = true
    · rw [compute_miss_probe cfg oracle true s g hfind (by simp [hp])] at hval
      rcases hperr : (explore_from_state oracle cfg s
          (mainValue oracle s) g.explored).err with _ | _
      · simp only [hperr, Bool.false_eq_true, if_false] at hval
        simp at hval
        rw [compute_miss_probe cfg oracle true s g hfind (by simp [hp]),
          compute_miss_noprobe cfg oracle false s g hfind (by simp)]
        simp only [hperr, Bool.false_eq_true, if_false]
        refine ⟨by rw [hval], ?_, ?_⟩ <;> trivial
      · simp [hperr] at hval
    · rw [compute_miss_noprobe cfg oracle true s g hfind (by simp [hp])] at hval
      simp at hval
      rw [compute_miss_noprobe cfg oracle false s g hfind (by simp),
        compute_miss_noprobe cfg oracle true s g hfind (by simp [hp])]
      refine ⟨?_, rfl, rfl⟩
      rw [hval]
  · rw [compute_hit cfg oracle true true s g w hfind] at hval
    simp at hval
    rw [compute_hit cfg oracle true false s g w hfind,
      compute_hit cfg oracle true true s g w hfind]
    refine ⟨?_, rfl, rfl⟩
    rw [hval]

/-- C7 witness: a concrete probeless-equals-probed evaluation. -/
theorem c7_witness :
    (compute_heuristic ⟨false, 500000, 10, 2, mkRat 9 10, 20, []⟩
        (fun _ => .ok (.finite 5)) true false [0] ⟨[], 0, 0, []⟩).value = .ok 5 ∧
    (compute_heuristic ⟨false, 500000, 10, 2, mkRat 9 10, 20, []⟩
        (fun _ => .ok (.finite 5)) true false [0] ⟨[], 0, 0, []⟩).glob.cache =
      (compute_heuristic ⟨false, 500000, 10, 2, mkRat 9 10, 20, []⟩
        (fun _ => .ok (.finite 5)) true true [0] ⟨[], 0, 0, []⟩).glob.cache ∧
    (compute_heuristic ⟨false, 500000, 10, 2, mkRat 9 10, 20, []⟩
        (fun _ => .ok (.finite 5)) true false [0] ⟨[], 0, 0, []⟩).preferred = [] :=
  c7_theorem ⟨false, 500000, 10, 2, mkRat 9 10, 20, []⟩
    (fun _ => .ok (.finite 5)) [0] ⟨[], 0, 0, []⟩ 5 rfl

/-- C9: when Oracle initialization fails, the constructor re-raises the
failure (no evaluator instance is produced), and with the readiness flag
still down a cache-missing `compute_heuristic` call throws rather than
returning any (degraded) value. -/
theorem c9_theorem (env : List (String × List String)) (m f : String)
    (cfg : Config) (oracle : Oracle) (probeOn : Bool) (s : StateV) (g : Globals)
    (hfail : ensure_python_ready env m f = .error ())
    (hfind : (if cfg.useCache then
        cacheFind (hash_state_values s) g.cache else none) = none) :
    initAntPlan env m f = .error () ∧
    (compute_heuristic cfg oracle false probeOn s g).value = .error () := by
  constructor
  · unfold initAntPlan
    rw [hfail]
  · rw [compute_notready cfg oracle probeOn s g hfind]

/-- C9 witness: an empty Python environment (import fails) and an
evaluator with the cache disabled. -/
theorem c9_witness :
    initAntPlan [] "antplan.scripts.eval_antplan_gripper"
      "anticipatory_cost_fn" = .error () ∧
    (compute_heuristic ⟨false, 500000, 10, 2, mkRat 9 10, 20, []⟩
        (fun _ => .ok (.finite 5)) false true [0] ⟨[], 0, 0, []⟩).value =
      .error () :=
  c9_theorem [] "antplan.scripts.eval_antplan_gripper" "anticipatory_cost_fn"
    ⟨false, 500000, 10, 2, mkRat 9 10, 20, []⟩ (fun _ => .ok (.finite 5))
    true [0] ⟨[], 0, 0, []⟩ (by simp [ensure_python_ready]) rfl

/-- The operator loop never faults when the Oracle is total. -/
theorem probeScan_err_false (oracle : Oracle)
    (htot : ∀ s', ∃ dd, oracle s' = .ok dd) (s : StateV) (cost : Int) (thr : ℚ) :
    ∀ (l : List (ℕ × FDOperator)) (b : Int),
      (probeScan oracle s cost thr l b).err = false := by
  intro l
  induction l with
  | nil => intro b; rfl
  | cons iop rest ih =>
    intro b
    rw [probeScan]
    by_cases happ : isApplicable iop.2 s = false
    · rw [if_pos happ]
      exact ih b
    · rw [if_neg happ]
      by_cases hb : b - 1 < 0
      · rw [if_pos hb]
      · rw [if_neg hb]
        obtain ⟨dd, hdd⟩ := htot (applyOp iop.2 s)
        simp only [hdd]
        show (probeScan oracle s cost thr rest (b - 1)).err = false
        exact ih (b - 1)

/-- The recursive probe never faults when the Oracle is total. -/
theorem probe_err_false (oracle : Oracle) (cfg : Config)
    (htot : ∀ s', ∃ dd, oracle s' = .ok dd) :
    ∀ (d : ℕ) (s : StateV) (cost b : Int) (ex : List ℕ),
      (probe oracle cfg d s cost b ex).err = false := by
  intro d
  induction d with
  | zero => intro s cost b ex; rfl
  | succ d ih =>
    intro s cost b ex
    by_cases hb : b ≤ 0
    · rw [probe, if_pos hb]
    · rw [probe, if_neg hb]
      by_cases hex : hash_state_values s ∈ ex
      · rw [if_pos hex]
      · rw [if_neg hex]
        try simp only []
        have hserr := probeScan_err_false oracle htot s cost
          cfg.improvementThreshold cfg.ops.enum b
        rw [if_neg (by simp [hserr])]
        rcases hsort : sortLe scoreLe (probeScan oracle s cost
            cfg.improvementThreshold cfg.ops.enum b).promising with _ | ⟨c1, rest⟩
        · simp only [hsort]
        · simp only [hsort]
          by_cases hq : (probeScan oracle s cost cfg.improvementThreshold
              cfg.ops.enum b).budget ≤ 0
          · rw [if_pos hq]
          · rw [if_neg hq]
            try simp only []
            have h1e := ih (applyOp c1.2.1 s) (dblTruncToInt c1.2.2)
              (probeScan oracle s cost cfg.improvementThreshold cfg.ops.enum b).budget
              (if 10000 < (hash_state_values s :: ex).length then []
               else hash_state_values s :: ex)
            rw [if_neg (by rw [h1e]; simp)]
            rcases rest with _ | ⟨c2, rest2⟩
            · rfl
            · try simp only []
              by_cases h1q : (probe oracle cfg d (applyOp c1.2.1 s)
                  (dblTruncToInt c1.2.2)
                  (probeScan oracle s cost cfg.improvementThreshold cfg.ops.enum b).budget
                  (if 10000 < (hash_state_values s :: ex).length then []
                   else hash_state_values s :: ex)).budget ≤ 0
              · rw [if_pos h1q]
              · rw [if_neg h1q]
                exact ih _ _ _ _

/-- Whole-cache eviction preserves cache soundness. -/
theorem CacheOK_evict (oracle : Oracle) (u : Bool) (m : ℕ)
    (c : List (ℕ × Int)) (h : CacheOK oracle c) :
    CacheOK oracle (maybe_evict_cache u m c) := by
  unfold maybe_evict_cache
  split
  · exact h
  · split
    · exact h
    · intro p hp
      simp at hp

/-- Storing the normalized Oracle value of a state under its fingerprint
preserves cache soundness. -/
theorem CacheOK_insert (oracle : Oracle) (s : StateV) (c : List (ℕ × Int))
    (h : CacheOK oracle c) :
    CacheOK oracle (cacheInsert (hash_state_values s) (mainValue oracle s) c) := by
  unfold cacheInsert
  split
  · intro p hp
    simp only [List.mem_map] at hp
    obtain ⟨q, hq, hpq⟩ := hp
    by_cases hqk : q.1 = hash_state_values s
    · rw [if_pos hqk] at hpq
      rw [← hpq]
      exact ⟨s, rfl, rfl⟩
    · rw [if_neg hqk] at hpq
      rw [← hpq]
      exact h q hq
  · intro p hp
    rcases List.mem_cons.mp hp with h1 | h1
    · rw [h1]
      exact ⟨s, rfl, rfl⟩
    · exact h p h1

/-- One evaluation with a total Oracle and a sound cache returns the
normalized Oracle value of the state, provided fingerprint-equal states
have equal values, and it keeps the cache sound. -/
theorem compute_total_step (cfg : Config) (oracle : Oracle) (probeOn : Bool)
    (s : StateV) (g : Globals)
    (htot : ∀ s', ∃ dd, oracle s' = .ok dd)
    (hcoll : ∀ t1 t2 : StateV, hash_state_values t1 = hash_state_values t2 →
      mainValue oracle t1 = mainValue oracle t2)
    (hOK : CacheOK oracle g.cache) :
    (compute_heuristic cfg oracle true probeOn s g).value =
      .ok (mainValue oracle s) ∧
    CacheOK oracle (compute_heuristic cfg oracle true probeOn s g).glob.cache := by
  rcases hfind : (if cfg.useCache then
      cacheFind (hash_state_values s) g.cache else none) with _ | w
  · by_cases hp : (probeOn &&
        should_explore_now cfg.explorationFrequency (g.evalCount + 1)) = true
    · rw [compute_miss_probe cfg oracle probeOn s g hfind hp]
      have hperr : (explore_from_state oracle cfg s
          (mainValue oracle s) g.explored).err = false := by
        unfold explore_from_state
        exact probe_err_false oracle cfg htot _ _ _ _ _
      simp only [hperr, Bool.false_eq_true, if_false]
      refine ⟨by trivial, ?_⟩
      by_cases hc : cfg.useCache
      · simp only [hc, if_true]
        exact CacheOK_insert oracle s _ (CacheOK_evict oracle _ _ _ hOK)
      · simp only [hc, Bool.false_eq_true, if_false]
        exact hOK
    · rw [Bool.not_eq_true] at hp
      rw [compute_miss_noprobe cfg oracle probeOn s g hfind hp]
      refine ⟨rfl, ?_⟩
      by_cases hc : cfg.useCache
      · simp only [hc, if_true]
        exact CacheOK_insert oracle s _ (CacheOK_evict oracle _ _ _ hOK)
      · simp only [hc, Bool.false_eq_true, if_false]
        exact hOK
  · rw [compute_hit cfg oracle true probeOn s g w hfind]
    refine ⟨?_, hOK⟩
    rcases hc : cfg.useCache with _ | _
    · rw [hc] at hfind
      simp at hfind
    · rw [hc] at hfind
      simp at hfind
      obtain ⟨t, ht, hw⟩ := hOK _ (cacheFind_mem hfind)
      have hw2 : w = mainValue oracle t := hw
      have ht2 : hash_state_values t = hash_state_values s := ht
      show Except.ok w = Except.ok (mainValue oracle s)
      rw [hw2, hcoll t s ht2]

/-- Every value in a run with a total Oracle and a sound initial cache is
the normalized Oracle value of the evaluated state, with or without the
memoization cache. -/
theorem runEvals_values (cfg : Config) (oracle : Oracle) (probeOn : Bool)
    (htot : ∀ s', ∃ dd, oracle s' = .ok dd)
    (hcoll : ∀ t1 t2 : StateV, hash_state_values t1 = hash_state_values t2 →
      mainValue oracle t1 = mainValue oracle t2) :
    ∀ (states : List StateV) (g : Globals), CacheOK oracle g.cache →
      (runEvals cfg oracle true probeOn states g).1 =
        states.map (fun s => .ok (mainValue oracle s)) := by
  intro states
  induction states with
  | nil => intro g _; rfl
  | cons s rest ih =>
    intro g hOK
    obtain ⟨h1, h2⟩ := compute_total_step cfg oracle probeOn s g htot hcoll hOK
    rw [runEvals]
    simp only [List.map_cons]
    rw [h1, ih _ h2]

/-- C2 counterexample: with a deterministic but faulting Oracle (fine on
the evaluated state, raising on its successor), a two-evaluation run of
the same state returns `[.ok 2, .ok 2]` with the cache enabled but
`[.ok 2, .error ()]` with the cache disabled: the cached second call hits
and returns before the probe, while the uncached second call re-runs the
probe (evaluation count 5) and the successor raise escapes.  Enabling the
cache thus changes a returned result, not only its cost. -/
theorem c2_counterexample :
    (runEvals ⟨true, 500000, 10, 2, mkRat 9 10, 20, [⟨[], [(0, 1)]⟩]⟩
        (fun st => if st = [0] then .ok (.finite 2) else .error ()) true true
        [[0], [0]] ⟨[], 3, 0, []⟩).1 = [.ok 2, .ok 2] ∧
    (runEvals ⟨false, 500000, 10, 2, mkRat 9 10, 20, [⟨[], [(0, 1)]⟩]⟩
        (fun st => if st = [0] then .ok (.finite 2) else .error ()) true true
        [[0], [0]] ⟨[], 3, 0, []⟩).1 = [.ok 2, .error ()] := by
  refine ⟨rfl, rfl⟩

/-- C2 (amended): cache transparency holds for runs in which the Oracle
is deterministic and never faults and no two distinct evaluated states
share a fingerprint: with a total Oracle and fingerprint-sound initial
globals, a run with the memoization cache enabled returns exactly the
same sequence of heuristic values as the same run with the cache
disabled.  With a faulting Oracle a cache hit can mask a probe fault the
uncached run would raise, and a 64-bit fingerprint collision between
states with different values would likewise break transparency. -/
theorem c2_theorem (cfg : Config) (oracle : Oracle) (probeOn : Bool)
    (states : List StateV) (g0 : Globals)
    (htot : ∀ s', ∃ dd, oracle s' = .ok dd)
    (hcoll : ∀ t1 t2 : StateV, hash_state_values t1 = hash_state_values t2 →
      mainValue oracle t1 = mainValue oracle t2)
    (hOK : CacheOK oracle g0.cache) :
    (runEvals { cfg with useCache := true } oracle true probeOn states g0).1 =
      (runEvals { cfg with useCache := false } oracle true probeOn states g0).1 := by
  rw [runEvals_values { cfg with useCache := true } oracle probeOn htot hcoll
      states g0 hOK,
    runEvals_values { cfg with useCache := false } oracle probeOn htot hcoll
      states g0 hOK]

/-- C2 witness: a three-state run (with a repeat) under a constant
Oracle, cached and uncached. -/
theorem c2_witness :
    (runEvals ⟨true, 500000, 10, 2, mkRat 9 10, 20, []⟩
        (fun _ => .ok (.finite 5)) true true [[0], [0], [1]] ⟨[], 0, 0, []⟩).1 =
      (runEvals ⟨false, 500000, 10, 2, mkRat 9 10, 20, []⟩
        (fun _ => .ok (.finite 5)) true true [[0], [0], [1]] ⟨[], 0, 0, []⟩).1 :=
  c2_theorem ⟨true, 500000, 10, 2, mkRat 9 10, 20, []⟩
    (fun _ => .ok (.finite 5)) true [[0], [0], [1]] ⟨[], 0, 0, []⟩
    (fun _ => ⟨.finite 5, rfl⟩) (fun _ _ _ => rfl) (by intro p hp; simp at hp)

end RatReducible

end AntPlan
